import Mathlib

/-!
Verification of the question-structuring core of the NLP4RE PDF form
extractor (`src/scripts/PDFFormExtractor.py`, class `PDFFormExtractor`).

The Python code is shallowly embedded below.  Conventions of the embedding:

* Python `None`-or-string values are `Option String`; Python truthiness of a
  string value (`None` and `""` are falsy) is the predicate `truthyOpt`.
* Python dicts produced by the extractor (`option_info`, question dicts, the
  final result dict) are structures whose fields mirror the dict keys.
  A question dict is either a text-question dict or a choice-question dict,
  so `Question` is a tagged union; dict lookups that may miss a key
  (for example `q.get("answer", "")` on a choice dict) are total functions
  returning the Python default.
* `re.sub` with a `$`-anchored pattern removes the suffix starting at the
  leftmost position where one alternative matches up to the end of the
  string; because the character classes of neighbouring pieces of every
  pattern used by the extractor are disjoint, greedy matching is forced and
  each pattern is decided by maximal-munch runs (`takeWhile`/`dropWhile`).
* `\s` is modelled as the six ASCII whitespace characters Python matches for
  ASCII text; `\d`, `[a-zA-Z0-9]`, `[a-zA-Z]` are the ASCII classes.
* The label-enhancement hook `_enhance_label_with_mappings` consults the
  `resource_mappings` configuration table imported from a module that is not
  part of the source tree (`from .mappings import resource_mappings`, pure
  configuration data per the spec).  Modelled from the spec: the hook is
  abstracted as a parameter `enh : String → String` applied to non-empty
  labels, with the code's guard `if not label: return label` kept concrete
  (`enhanceLabel`).  All results below hold for every `enh`.
* `_validate_against_mappings` only logs and may add a `validation_summary`
  key; it modifies none of the fields modelled here, so the pipeline is
  `_structure_form_data` followed by `_merge_duplicate_questions`.
* Geometry coordinates (PyMuPDF floats) are modelled as rationals; the
  comparisons performed by the label resolver are exact on the dyadic values
  involved.
-/

namespace PFE

/-- Python truthiness of an optional string: `None` and `""` are falsy. -/
def truthyOpt : Option String → Bool
  | none => false
  | some s => s ≠ ""

/-- Python `a or b` on optional strings (used for `text_input_value or enhanced_label`). -/
def pyOr (a b : Option String) : Option String :=
  if truthyOpt a then a else b

/-- The whitespace class `\s` of Python `re` for ASCII text, also the set
stripped by `str.strip()`. -/
def pyIsSpace (c : Char) : Bool :=
  c = ' ' ∨ c = '\t' ∨ c = '\n' ∨ c = '\r' ∨ c = '\x0b' ∨ c = '\x0c'

/-- The ASCII class `[a-zA-Z0-9]`. -/
def isAsciiAlnum (c : Char) : Bool :=
  c.isAlpha ∨ c.isDigit

/-- Python `str.strip()` on char lists. -/
def pyStripList (l : List Char) : List Char :=
  ((l.dropWhile pyIsSpace).reverse.dropWhile pyIsSpace).reverse

/-- Python `str.strip()`. -/
def pyStrip (s : String) : String :=
  ⟨pyStripList s.toList⟩

/-- Removal of the suffix at the leftmost position where `p` holds of the
remaining suffix: the semantics of `re.sub(pattern, "", s)` for a
`$`-anchored `pattern` whose match test on a suffix is `p` (no pattern used
below matches the empty suffix). -/
def stripTail (p : List Char → Bool) : List Char → List Char
  | [] => []
  | c :: rest => if p (c :: rest) then [] else c :: stripTail p rest

/-- Does `_\d+_[^_]*$` match this entire suffix?  Greedy matching is forced
because a digit is never `_`. -/
def isPosSuffix (s : List Char) : Bool :=
  match s with
  | '_' :: rest =>
    let ds := rest.takeWhile Char.isDigit
    let r1 := rest.dropWhile Char.isDigit
    (!ds.isEmpty) && (match r1 with
                      | '_' :: tail => tail.all (· ≠ '_')
                      | _ => false)
  | _ => false

/-- Does `_edit;_[^_]*$` match this entire suffix? -/
def isEditSuffix (s : List Char) : Bool :=
  "_edit;_".toList.isPrefixOf s ∧ (s.drop 7).all (· ≠ '_')

/-- `base_question = re.sub(r"_\d+_[^_]*$|_edit;_[^_]*$", "", field_name)`
(`_structure_form_data`, the Field Grouper's base-key rule). -/
def baseKey (field_name : String) : String :=
  ⟨stripTail (fun s => isPosSuffix s ∨ isEditSuffix s) field_name.toList⟩

/-- One maximal whitespace run becomes a single space:
`re.sub(r"\s+", " ", t)`.  The boolean argument records whether the
previous character was whitespace. -/
def collapseWsAux : Bool → List Char → List Char
  | _, [] => []
  | prevWs, c :: rest =>
    if pyIsSpace c then
      (if prevWs then [] else [' ']) ++ collapseWsAux true rest
    else c :: collapseWsAux false rest

/-- `re.sub(r"\s+", " ", t)`. -/
def collapseWs (l : List Char) : List Char :=
  collapseWsAux false l

/-- Does `\s+[a-zA-Z0-9]{20,}\s*$` match this entire suffix (hash-like
trailing token)?  The three character classes are pairwise disjoint, so the
decomposition into maximal runs is forced. -/
def isHashSuffix (s : List Char) : Bool :=
  let ws := s.takeWhile pyIsSpace
  let r1 := s.dropWhile pyIsSpace
  let al := r1.takeWhile isAsciiAlnum
  let r2 := r1.dropWhile isAsciiAlnum
  ws ≠ [] ∧ al.length ≥ 20 ∧ r2.all pyIsSpace

/-- Does `\s+[a-zA-Z]{1,3}$` match this entire suffix (trailing short
word)? -/
def isShortTail (s : List Char) : Bool :=
  let ws := s.takeWhile pyIsSpace
  let r := s.dropWhile pyIsSpace
  ws ≠ [] ∧ r ≠ [] ∧ r.length ≤ 3 ∧ r.all Char.isAlpha

/-- One alternative of `^(I+V*|V+I*)\s+(\d+)\s+` rewritten to `\1.\2. `:
a maximal run of `a`, then of `b`, then whitespace, digits, whitespace.
Returns the rewritten list when the alternative matches at the start. -/
def tryRoman (a b : Char) (l : List Char) : Option (List Char) :=
  let r1 := l.takeWhile (· = a)
  let t1 := l.dropWhile (· = a)
  let r2 := t1.takeWhile (· = b)
  let t2 := t1.dropWhile (· = b)
  let ws1 := t2.takeWhile pyIsSpace
  let t3 := t2.dropWhile pyIsSpace
  let ds := t3.takeWhile Char.isDigit
  let t4 := t3.dropWhile Char.isDigit
  let ws2 := t4.takeWhile pyIsSpace
  let t5 := t4.dropWhile pyIsSpace
  if r1 ≠ [] ∧ ws1 ≠ [] ∧ ds ≠ [] ∧ ws2 ≠ [] then
    some (r1 ++ r2 ++ ['.'] ++ ds ++ ['.', ' '] ++ t5)
  else none

/-- `re.sub(r"^(I+V*|V+I*)\s+(\d+)\s+", r"\1.\2. ", t)`: anchored at the
start, alternatives tried left to right. -/
def romanFix (l : List Char) : List Char :=
  match tryRoman 'I' 'V' l with
  | some out => out
  | none =>
    match tryRoman 'V' 'I' l with
    | some out => out
    | none => l

/-- `question_text[0].upper() + question_text[1:]` when the text has length
at least 2 (`if question_text and len(question_text) > 1`). -/
def capitalizeFirst (l : List Char) : List Char :=
  match l with
  | c :: c2 :: rest => c.toUpper :: c2 :: rest
  | _ => l

/-- `_extract_question_text`: derives readable question text from a base
field name. -/
def extractQuestionText (base_question : String) : String :=
  if ("_                             _".toList.isPrefixOf base_question.toList) then
    "Title and Authors"
  else
    let t0 := base_question.toList.map (fun c => if c = '_' then ' ' else c)
    let t1 := stripTail isHashSuffix t0
    let t2 := romanFix t1
    let t3 := pyStripList (collapseWs t2)
    let t4 := stripTail isShortTail t3
    let t5 := capitalizeFirst t4
    if t5 = [] then "Question text not found" else ⟨t5⟩

/-- A raw widget record as collected by `_collect_raw_field_data`:
`name` = `widget.field_name` (`""` also stands for a missing name, which
Python treats identically via falsiness), `ftype` = `field_type_string`,
`value` = `field_value`, `label` = the spatially resolved label,
`field_label` = the form-defined label. -/
structure Field where
  name : String
  ftype : String
  value : Option String
  label : Option String
  field_label : Option String
deriving DecidableEq

/-- One entry of `options_details` (the `option_info` dict).
`source_type = none` models the key being absent. -/
structure OptionInfo where
  label : Option String
  field_name : Option String
  field_value : Option String
  is_selected : Bool
  source_type : Option String
deriving DecidableEq

/-- A text-question dict. -/
structure TextQ where
  question_text : String
  answer : String
  field_name : String
deriving DecidableEq

/-- A choice-question dict.  `qtype` is the `type` value
(`"RadioButton"`, `"CheckBox"`, or the joined set of observed types). -/
structure ChoiceQ where
  question_text : String
  qtype : String
  selected_answers : List (Option String)
  all_options : List (Option String)
  options_details : List OptionInfo
  total_options : Nat
deriving DecidableEq

/-- A structured question dict. -/
inductive Question where
  | text : TextQ → Question
  | choice : ChoiceQ → Question
deriving DecidableEq

/-- `extraction_summary`. -/
structure ExtractionSummary where
  total_fields_found : Nat
  questions_with_selections : Nat
deriving DecidableEq

/-- The structured result dict. -/
structure ExtractionResult where
  pdf_name : String
  total_questions : Nat
  extraction_summary : ExtractionSummary
  questions : List Question
deriving DecidableEq

/-- `_is_field_selected`. -/
def isFieldSelected (f : Field) : Bool :=
  if f.ftype = "RadioButton" then
    match f.value with
    | none => false
    | some v => v ≠ "Off" ∧ v ≠ ""
  else if f.ftype = "CheckBox" then
    match f.value with
    | none => false
    | some v => v ≠ "Off" ∧ v ≠ ""
  else if f.ftype = "Text" then
    match f.value with
    | none => false
    | some v => pyStrip v ≠ ""
  else false

/-- One word of `page.get_text("words")`: a bounding box and the text. -/
structure Word where
  x0 : ℚ
  y0 : ℚ
  x1 : ℚ
  y1 : ℚ
  text : String
deriving DecidableEq

/-- A widget rectangle (`fitz.Rect`). -/
structure WRect where
  x0 : ℚ
  y0 : ℚ
  x1 : ℚ
  y1 : ℚ
deriving DecidableEq

/-- Stable insertion into a list sorted by `le`: an element is placed after
every existing element `b` with `le b a`. -/
def insertLe (le : α → α → Bool) (a : α) : List α → List α
  | [] => [a]
  | b :: rest => if le b a then b :: insertLe le a rest else a :: b :: rest

/-- Stable sort by `le` (insertion sort).  Python's `list.sort` is a stable
sort, so any stable sort by the same key computes the same list. -/
def sortStable (le : α → α → Bool) : List α → List α
  | [] => []
  | a :: rest => insertLe le a (sortStable le rest)

/-- The gap cutoff of `_find_label_for_widget`: keep the first candidate,
then keep following candidates while the gap to the previous kept
candidate's `x0` is at most `MAX_WORD_GAP = 50`. -/
def collectLabelWords (prev : ℚ) : List (ℚ × String) → List String
  | [] => []
  | (x, t) :: rest => if x - prev > 50 then [] else t :: collectLabelWords x rest

/-- `_enhance_label_with_mappings` restricted by its own guard
`if not label or not self.resource_mappings: return label`.  The table walk
on a non-empty label is the abstracted configuration hook `enh`
(see the header comment; modelled from the spec, which calls the dictionary
lookup an optional enhancement). -/
def enhanceLabel (enh : String → String) : Option String → Option String
  | none => none
  | some s => if s = "" then some "" else some (enh s)

/-- `_find_label_for_widget`: candidates are words vertically aligned with
the widget's midpoint within `VERTICAL_TOLERANCE = 3` and to the right of
the widget within `MAX_HORIZONTAL_DISTANCE = 150`; they are sorted by `x0`,
cut at the first gap above 50, joined with spaces, and passed through the
enhancement hook (`return enhanced_label or label`). -/
def findLabelForWidget (enh : String → String) (widget_rect : WRect)
    (words : List Word) : Option String :=
  let widget_mid_y := (widget_rect.y0 + widget_rect.y1) / 2
  let candidate_words := words.filterMap (fun w =>
    let word_mid_y := (w.y0 + w.y1) / 2
    if |word_mid_y - widget_mid_y| ≤ 3 ∧ w.x0 > widget_rect.x1 ∧
        w.x0 - widget_rect.x1 ≤ 150 then
      some (w.x0, w.text)
    else none)
  if candidate_words = [] then none
  else
    let sorted := sortStable (fun a b => a.1 ≤ b.1) candidate_words
    let label_words : List String :=
      match sorted with
      | [] => []
      | (x, t) :: rest => t :: collectLabelWords x rest
    let label := " ".intercalate label_words
    let enhanced := if label = "" then label else enh label
    some (if enhanced ≠ "" then enhanced else label)

/-- `existing_info["field_value"]` update when a duplicate option label is
met in `_structure_form_data`: backfill an empty value, concatenate two
non-empty values with `", "`. -/
def combineFieldValue (old new : Option String) : Option String :=
  if truthyOpt new ∧ ¬ truthyOpt old then new
  else if truthyOpt new ∧ truthyOpt old then
    some ((old.getD "") ++ ", " ++ (new.getD ""))
  else old

/-- Merge a new `option_info` into the first entry with the same label
(the dict entry created at that label's first occurrence):
`existing_info["is_selected"]` becomes true if either is selected, and the
field values are combined. -/
def mergeFirst (oi : OptionInfo) : List OptionInfo → List OptionInfo
  | [] => []
  | e :: rest =>
    if e.label = oi.label then
      { e with is_selected := e.is_selected || oi.is_selected,
               field_value := combineFieldValue e.field_value oi.field_value } :: rest
    else e :: mergeFirst oi rest

/-- One step of building `option_labels_to_info`: a new label is appended,
a duplicate label is merged into its first occurrence. -/
def insertOption (acc : List OptionInfo) (oi : OptionInfo) : List OptionInfo :=
  if acc.any (fun e => e.label = oi.label) then mergeFirst oi acc
  else acc ++ [oi]

/-- `option_labels_to_info` as a list in key insertion order (Python dicts
preserve insertion order). -/
def dedupOptions (l : List OptionInfo) : List OptionInfo :=
  l.foldl insertOption []

/-- The per-field `option_info` record built in `_structure_form_data`,
given the current `text_input_value`. -/
def mkOptionInfo (enh : String → String) (tiv : Option String) (f : Field) :
    OptionInfo :=
  { label := pyOr tiv (enhanceLabel enh f.label)
    field_name := some f.name
    field_value := f.value
    is_selected := isFieldSelected f
    source_type := if f.ftype = "Text" then some "Text" else none }

/-- The loop over a field group in `_structure_form_data`, producing the
sequence of `option_info` records before dict deduplication.  A Text field
without a resolved label is skipped when its value is falsy, and otherwise
sets `text_input_value` (which then takes precedence over the enhanced
label for this and every later field of the group). -/
def rawOptionInfos (enh : String → String) (tiv : Option String) :
    List Field → List OptionInfo
  | [] => []
  | f :: rest =>
    if f.ftype = "Text" ∧ f.label = none then
      match f.value with
      | none => rawOptionInfos enh tiv rest
      | some v =>
        if v = "" then rawOptionInfos enh tiv rest
        else mkOptionInfo enh (some v) f :: rawOptionInfos enh (some v) rest
    else mkOptionInfo enh tiv f :: rawOptionInfos enh tiv rest

/-- `question_has_answer` (defined identically inside `_structure_form_data`
and `_merge_duplicate_questions`): a selected answer counts when it is
truthy and not the `"None"` sentinel. -/
def ansCounts (a : Option String) : Bool :=
  match a with
  | none => false
  | some s => s ≠ "" ∧ s ≠ "None"

/-- The `type` value of a question dict. -/
def qtypeOf : Question → String
  | .text _ => "Text"
  | .choice c => c.qtype

/-- The `question_text` value of a question dict. -/
def qtextOf : Question → String
  | .text t => t.question_text
  | .choice c => c.question_text

/-- `q.get("answer", "")`: a choice dict has no `answer` key. -/
def getAnswer : Question → String
  | .text t => t.answer
  | .choice _ => ""

/-- `q.get("field_name")`: a choice dict has no `field_name` key. -/
def getFieldName : Question → Option String
  | .text t => some t.field_name
  | .choice _ => none

/-- `question_has_answer`.  A dict whose `type` is `"Text"` is tested on its
`answer` key (a choice dict built from an all-Text group has `type`
`"Text"` but no `answer` key, so it never counts); any other dict is tested
on `selected_answers`. -/
def hasAnswer : Question → Bool
  | .text t => t.answer ≠ ""
  | .choice c => if c.qtype = "Text" then false else c.selected_answers.any ansCounts

/-- Group-to-question conversion in `_structure_form_data` for one base key
(empty groups produce no question: `if not fields: continue`). -/
def structureGroup (enh : String → String) (base : String)
    (fields : List Field) : List Question :=
  match fields with
  | [] => []
  | f0 :: rest =>
    let question_text :=
      match fields.findSome? (fun f =>
          match f.field_label with
          | some s => if s ≠ "" then some s else none
          | none => none) with
      | some s => s
      | none => extractQuestionText base
    if rest = [] ∧ f0.ftype = "Text" then
      [.text { question_text := question_text
               answer := f0.value.getD ""
               field_name := f0.name }]
    else
      let od := dedupOptions (rawOptionInfos enh none fields)
      let sel := (od.filter (fun o => o.is_selected)).map (fun o => o.label)
      let qtype :=
        if fields.any (fun f => f.ftype = "RadioButton") then "RadioButton"
        else if fields.any (fun f => f.ftype = "CheckBox") then "CheckBox"
        else ",".intercalate
          (sortStable (fun a b : String => a < b ∨ a = b)
            ((fields.map (fun f => f.ftype)).dedup))
      [.choice { question_text := question_text
                 qtype := qtype
                 selected_answers := if sel ≠ [] then sel else [some "None"]
                 all_options := od.map (fun o => o.label)
                 options_details := od
                 total_options := od.length }]

/-- Insert an element under key `k` into an association of key to group,
appending to the first group with that key, or appending a fresh group at
the end: the behaviour of `dict[k].append(x)` with insertion-ordered keys. -/
def insertGroup (k : String) (a : α) :
    List (String × List α) → List (String × List α)
  | [] => [(k, [a])]
  | (k', l) :: rest =>
    if k' = k then (k', l ++ [a]) :: rest
    else (k', l) :: insertGroup k a rest

/-- Group a list by a string key, keys in first-seen order. -/
def groupByKey (key : α → String) (xs : List α) : List (String × List α) :=
  xs.foldl (fun acc x => insertGroup (key x) x acc) []

/-- The group of key `k` (empty when the key is absent). -/
def lookupG (k : String) (gs : List (String × List α)) : List α :=
  match gs.find? (fun g => g.1 = k) with
  | some g => g.2
  | none => []

/-- The Field Grouper of `_structure_form_data`: fields with a falsy name
are skipped (`if not field_name: continue`), the rest are grouped by
`baseKey`. -/
def groupFields (raw_fields : List Field) : List (String × List Field) :=
  groupByKey (fun f => baseKey f.name) (raw_fields.filter (fun f => f.name ≠ ""))

/-- `_structure_form_data`. -/
def structureFormData (enh : String → String) (pdfName : String)
    (raw_fields : List Field) : ExtractionResult :=
  let qs := (groupFields raw_fields).flatMap (fun g => structureGroup enh g.1 g.2)
  { pdf_name := pdfName
    total_questions := qs.length
    extraction_summary :=
      { total_fields_found := raw_fields.length
        questions_with_selections := (qs.filter hasAnswer).length }
    questions := qs }

/-- The scan of `_merge_question_group` over a duplicate group: the last
question whose `type` is `RadioButton` or `CheckBox` becomes
`choice_question`, otherwise the last one whose `type` is `"Text"` becomes
`text_question`. -/
def scanStep (acc : Option Question × Option Question) (q : Question) :
    Option Question × Option Question :=
  if qtypeOf q = "RadioButton" ∨ qtypeOf q = "CheckBox" then (some q, acc.2)
  else if qtypeOf q = "Text" then (acc.1, some q)
  else acc

/-- The full scan (`for question in question_list: ...`). -/
def scanQG (qs : List Question) : Option Question × Option Question :=
  qs.foldl scanStep (none, none)

/-- Mark the first option whose label equals the merged text answer as
selected, annotating a missing `source_type` and backfilling a falsy
`field_value` (`existing_opt` mutation in `_merge_question_group`). -/
def updFirst (ta : String) : List OptionInfo → List OptionInfo
  | [] => []
  | o :: rest =>
    if o.label = some ta then
      { o with is_selected := true
               source_type := if truthyOpt o.source_type then o.source_type
                              else some "Text"
               field_value := if truthyOpt o.field_value then o.field_value
                              else some ta } :: rest
    else o :: updFirst ta rest

/-- The `options_details` update of `_merge_question_group` when a
non-blank text answer `ta` is merged: update the first option with label
`ta` if one exists, otherwise append a fresh selected option of
`source_type` `"Text"` carrying the text question's field name. -/
def mergeOd (ta : String) (fname : Option String) (od : List OptionInfo) :
    List OptionInfo :=
  match od.find? (fun o => o.label = some ta) with
  | some _ => updFirst ta od
  | none =>
    od ++ [{ label := some ta
             field_name := fname
             field_value := some ta
             is_selected := true
             source_type := some "Text" }]

/-- The body of `_merge_question_group` once both a choice question and a
text question were found: merge the stripped text answer into the choice
question (no-op when the stripped answer is empty). -/
def mergeBody (cq tq : Question) : Question :=
  if pyStrip (getAnswer tq) = "" then cq
  else
    match cq with
    | .text t => .text t
    | .choice c =>
      let ta := pyStrip (getAnswer tq)
      let sa :=
        if c.selected_answers ≠ [] ∧ c.selected_answers ≠ [some "None"] then
          c.selected_answers ++ [some ta]
        else [some ta]
      let ao :=
        if (some ta) ∈ c.all_options then c.all_options
        else c.all_options ++ [some ta]
      let od := mergeOd ta (getFieldName tq) c.options_details
      .choice { c with selected_answers := sa
                       all_options := ao
                       options_details := od
                       total_options := od.length }

/-- `_merge_question_group`.  When the scan finds no choice-and-text pair,
the first question of the group is returned (`return question_list[0]`);
the default for the impossible empty group is irrelevant since the merger
only calls this on non-empty groups. -/
def mergeQuestionGroup (qs : List Question) : Question :=
  match scanQG qs with
  | (some cq, some tq) => mergeBody cq tq
  | _ => qs.headD (.text { question_text := "", answer := "", field_name := "" })

/-- The loop body of `_merge_duplicate_questions` over one duplicate group:
a single question passes through, a bigger group is merged. -/
def mergeGroupStep (g : String × List Question) : Question :=
  if g.2.length = 1 then
    g.2.headD (.text { question_text := "", answer := "", field_name := "" })
  else mergeQuestionGroup g.2

/-- `_merge_duplicate_questions`. -/
def mergeDuplicateQuestions (res : ExtractionResult) : ExtractionResult :=
  if res.questions = [] then res
  else
    let merged := (groupByKey qtextOf res.questions).map mergeGroupStep
    { res with
      questions := merged
      total_questions := merged.length
      extraction_summary :=
        { res.extraction_summary with
          questions_with_selections := (merged.filter hasAnswer).length } }

/-- The structuring pipeline on collected raw fields:
`_structure_form_data` then `_merge_duplicate_questions`
(`_validate_against_mappings` changes none of the modelled fields). -/
def pipeline (enh : String → String) (pdfName : String)
    (raw_fields : List Field) : ExtractionResult :=
  mergeDuplicateQuestions (structureFormData enh pdfName raw_fields)

/-! ### Lemmas about the grouping combinator -/

lemma keys_insertGroup (k : String) (a : α) (gs : List (String × List α)) :
    (insertGroup k a gs).map Prod.fst =
      if k ∈ gs.map Prod.fst then gs.map Prod.fst else gs.map Prod.fst ++ [k] := by
  induction gs with
  | nil => simp [insertGroup]
  | cons g rest ih =>
    obtain ⟨k', l⟩ := g
    by_cases h : k' = k
    · subst h; simp [insertGroup]
    · simp only [insertGroup, if_neg h, List.map_cons, ih]
      by_cases hm : k ∈ rest.map Prod.fst <;>
        simp [hm, List.mem_cons, Ne.symm h]

lemma lookupG_insertGroup (k k' : String) (a : α) (gs : List (String × List α)) :
    lookupG k (insertGroup k' a gs) =
      if k' = k then lookupG k gs ++ [a] else lookupG k gs := by
  induction gs with
  | nil =>
    by_cases h : k' = k <;> simp [insertGroup, lookupG, List.find?, h]
  | cons g rest ih =>
    obtain ⟨k₀, l⟩ := g
    by_cases h0 : k₀ = k'
    · subst h0
      by_cases h : k₀ = k <;> simp [insertGroup, lookupG, List.find?, h]
    · by_cases h : k₀ = k
      · subst h
        have hk : ¬ k' = k₀ := fun e => h0 e.symm
        simp [insertGroup, lookupG, List.find?, h0, hk]
      · simp only [insertGroup, if_neg h0]
        by_cases hk : k' = k <;>
          simpa [lookupG, List.find?, h, hk] using ih

lemma mem_insertGroup {k : String} {a : α}
    (gs : List (String × List α)) :
    ∀ p ∈ insertGroup k a gs,
      p ∈ gs ∨ p = (k, [a]) ∨ ∃ l, (k, l) ∈ gs ∧ p = (k, l ++ [a]) := by
  induction gs with
  | nil =>
    intro p hp
    simp only [insertGroup, List.mem_singleton] at hp
    exact Or.inr (Or.inl hp)
  | cons g rest ih =>
    obtain ⟨k₀, l₀⟩ := g
    intro p hp
    by_cases h0 : k₀ = k
    · subst h0
      rw [insertGroup, if_pos rfl, List.mem_cons] at hp
      rcases hp with h | h
      · exact Or.inr (Or.inr ⟨l₀, by simp, h⟩)
      · exact Or.inl (List.mem_cons_of_mem _ h)
    · simp only [insertGroup, if_neg h0, List.mem_cons] at hp
      rcases hp with h | h
      · exact Or.inl (by simp [h])
      · rcases ih p h with h' | h' | ⟨l, hl, he⟩
        · exact Or.inl (List.mem_cons_of_mem _ h')
        · exact Or.inr (Or.inl h')
        · exact Or.inr (Or.inr ⟨l, List.mem_cons_of_mem _ hl, he⟩)

lemma insertGroup_fresh (k : String) (a : α) :
    ∀ gs : List (String × List α), k ∉ gs.map Prod.fst →
      insertGroup k a gs = gs ++ [(k, [a])] := by
  intro gs
  induction gs with
  | nil => intro _; simp [insertGroup]
  | cons g rest ih =>
    obtain ⟨k₀, l₀⟩ := g
    intro h
    simp only [List.map_cons, List.mem_cons] at h
    push_neg at h
    have hne : ¬ (k₀ = k) := fun e => h.1 e.symm
    simp only [insertGroup, if_neg hne, List.cons_append]
    rw [ih h.2]

/-- The group of key `k` produced by the grouping fold is the sublist of
elements whose key is `k`, in order. -/
lemma lookupG_groupByKey (key : α → String) (xs : List α) (k : String) :
    lookupG k (groupByKey key xs) = xs.filter (fun x => key x = k) := by
  suffices h : ∀ acc, lookupG k (xs.foldl (fun acc x => insertGroup (key x) x acc) acc) =
      lookupG k acc ++ xs.filter (fun x => key x = k) by
    simpa [groupByKey, lookupG, List.find?] using h []
  induction xs with
  | nil => simp
  | cons x rest ih =>
    intro acc
    simp only [List.foldl_cons, List.filter_cons]
    rw [ih, lookupG_insertGroup]
    by_cases h : key x = k <;> simp [h]

lemma keys_nodup_foldl (key : α → String) (xs : List α) :
    ∀ acc : List (String × List α), (acc.map Prod.fst).Nodup →
      ((xs.foldl (fun acc x => insertGroup (key x) x acc) acc).map Prod.fst).Nodup := by
  induction xs with
  | nil => exact fun acc h => h
  | cons x rest ih =>
    intro acc hacc
    simp only [List.foldl_cons]
    refine ih _ ?_
    rw [keys_insertGroup]
    by_cases hm : key x ∈ acc.map Prod.fst
    · simpa [hm] using hacc
    · simpa [hm, List.nodup_append] using hacc

/-- The keys of the grouping are pairwise distinct. -/
lemma keys_nodup_groupByKey (key : α → String) (xs : List α) :
    ((groupByKey key xs).map Prod.fst).Nodup :=
  keys_nodup_foldl key xs [] (by simp)

lemma key_of_mem_foldl_insertGroup (key : α → String) (xs : List α) :
    ∀ acc : List (String × List α),
      (∀ q ∈ acc, ∀ x ∈ q.2, key x = q.1) →
      ∀ q ∈ xs.foldl (fun acc x => insertGroup (key x) x acc) acc,
        ∀ x ∈ q.2, key x = q.1 := by
  induction xs with
  | nil => exact fun acc h => h
  | cons x rest ih =>
    intro acc hacc
    simp only [List.foldl_cons]
    refine ih _ ?_
    intro q hq y hy
    rcases mem_insertGroup _ q hq with h | h | ⟨l, hl, he⟩
    · exact hacc q h y hy
    · subst h; simp at hy; simp [hy]
    · subst he
      simp only [List.mem_append, List.mem_singleton] at hy
      rcases hy with hy | hy
      · exact hacc _ hl y hy
      · simp [hy]

/-- Every element of a group has that group's key. -/
lemma key_of_mem_groupByKey (key : α → String) (xs : List α)
    {p : String × List α} (hp : p ∈ groupByKey key xs) :
    ∀ x ∈ p.2, key x = p.1 :=
  key_of_mem_foldl_insertGroup key xs [] (by simp) p hp

lemma mem_of_mem_foldl_insertGroup (key : α → String) (xs : List α) :
    ∀ acc : List (String × List α),
      ∀ q ∈ xs.foldl (fun acc x => insertGroup (key x) x acc) acc,
        ∀ x ∈ q.2, (∃ p ∈ acc, x ∈ p.2) ∨ x ∈ xs := by
  induction xs with
  | nil => exact fun acc q hq x hx => Or.inl ⟨q, hq, hx⟩
  | cons y rest ih =>
    intro acc q hq x hx
    simp only [List.foldl_cons] at hq
    rcases ih _ q hq x hx with ⟨p, hp, hxp⟩ | h
    · rcases mem_insertGroup _ p hp with h | h | ⟨l, hl, he⟩
      · exact Or.inl ⟨p, h, hxp⟩
      · subst h; simp at hxp; simp [hxp]
      · subst he
        simp only [List.mem_append, List.mem_singleton] at hxp
        rcases hxp with hxp | hxp
        · exact Or.inl ⟨_, hl, hxp⟩
        · simp [hxp]
    · simp [h]

/-- Every element of a group is an element of the grouped list. -/
lemma mem_of_mem_groupByKey (key : α → String) (xs : List α)
    {p : String × List α} (hp : p ∈ groupByKey key xs) :
    ∀ x ∈ p.2, x ∈ xs := by
  intro x hx
  rcases mem_of_mem_foldl_insertGroup key xs [] p hp x hx with ⟨q, hq, _⟩ | h
  · simp at hq
  · exact h

lemma ne_nil_of_mem_foldl_insertGroup (key : α → String) (xs : List α) :
    ∀ acc : List (String × List α),
      (∀ q ∈ acc, q.2 ≠ []) →
      ∀ q ∈ xs.foldl (fun acc x => insertGroup (key x) x acc) acc, q.2 ≠ [] := by
  induction xs with
  | nil => exact fun acc h => h
  | cons x rest ih =>
    intro acc hacc
    simp only [List.foldl_cons]
    refine ih _ ?_
    intro q hq
    rcases mem_insertGroup _ q hq with h | h | ⟨l, _, he⟩
    · exact hacc q h
    · subst h; simp
    · subst he; simp

/-- No group is empty. -/
lemma ne_nil_of_mem_groupByKey (key : α → String) (xs : List α)
    {p : String × List α} (hp : p ∈ groupByKey key xs) : p.2 ≠ [] :=
  ne_nil_of_mem_foldl_insertGroup key xs [] (by simp) p hp

/-- Grouping a list whose keys are already pairwise distinct yields one
singleton group per element, in order. -/
lemma groupByKey_of_nodup_keys (key : α → String) :
    ∀ (xs : List α) (acc : List (String × List α)),
      (∀ x ∈ xs, key x ∉ acc.map Prod.fst) → (xs.map key).Nodup →
      xs.foldl (fun acc x => insertGroup (key x) x acc) acc =
        acc ++ xs.map (fun x => (key x, [x])) := by
  intro xs
  induction xs with
  | nil => intro acc _ _; simp
  | cons x rest ih =>
    intro acc hfresh hnd
    simp only [List.foldl_cons]
    rw [insertGroup_fresh (key x) x acc (hfresh x (by simp))]
    rw [List.map_cons, List.nodup_cons] at hnd
    rw [ih (acc ++ [(key x, [x])]) ?_ hnd.2]
    · simp
    · intro y hy
      simp only [List.map_append, List.mem_append, List.map_cons]
      push_neg
      refine ⟨hfresh y (by simp [hy]), ?_⟩
      simp only [List.map_nil, List.mem_singleton]
      intro he
      exact hnd.1 (he ▸ List.mem_map_of_mem key hy)

/-- Two pairs of an association with pairwise-distinct keys that carry the
same key are the same pair. -/
lemma eq_of_mem_nodup_keys :
    ∀ (gs : List (String × List α)), (gs.map Prod.fst).Nodup →
      ∀ p ∈ gs, ∀ q ∈ gs, p.1 = q.1 → p = q := by
  intro gs
  induction gs with
  | nil => intro _ p hp; simp at hp
  | cons g rest ih =>
    intro hnd p hp q hq hpq
    rw [List.map_cons, List.nodup_cons] at hnd
    rcases List.mem_cons.mp hp with hp' | hp' <;>
      rcases List.mem_cons.mp hq with hq' | hq'
    · rw [hp', hq']
    · exfalso
      apply hnd.1
      rw [← hp', hpq]
      exact List.mem_map_of_mem Prod.fst hq'
    · exfalso
      apply hnd.1
      rw [← hq', ← hpq]
      exact List.mem_map_of_mem Prod.fst hp'
    · exact ih hnd.2 p hp' q hq' hpq

lemma groupByKey_ne_nil (key : α → String) (xs : List α) (h : xs ≠ []) :
    groupByKey key xs ≠ [] := by
  intro he
  obtain ⟨x, xs', rfl⟩ := List.exists_cons_of_ne_nil h
  have : x ∈ xs'.filter (fun y => key y = key x) ∨ True := Or.inr trivial
  have hl : lookupG (key x) (groupByKey key (x :: xs')) =
      (x :: xs').filter (fun y => key y = key x) :=
    lookupG_groupByKey key (x :: xs') (key x)
  rw [he] at hl
  simp only [lookupG, List.find?] at hl
  rw [List.filter_cons] at hl
  simp at hl

lemma headD_mem {l : List α} (h : l ≠ []) (d : α) : l.headD d ∈ l := by
  cases l with
  | nil => exact absurd rfl h
  | cons a t => simp [List.headD]

/-! ### Lemmas about the merger scan -/

/-- The first branch test of the `_merge_question_group` scan. -/
def isChoiceTyped (q : Question) : Bool :=
  qtypeOf q = "RadioButton" ∨ qtypeOf q = "CheckBox"

/-- The second branch test of the `_merge_question_group` scan (an `elif`,
so it requires the first test to fail). -/
def isTextTyped (q : Question) : Bool :=
  !(isChoiceTyped q) && (qtypeOf q == "Text")

lemma scanStep_fst (acc : Option Question × Option Question) (q : Question) :
    (scanStep acc q).1 = (List.find? isChoiceTyped [q]).or acc.1 := by
  by_cases hc : qtypeOf q = "RadioButton" ∨ qtypeOf q = "CheckBox"
  · simp [scanStep, hc, List.find?, isChoiceTyped]
  · by_cases ht : qtypeOf q = "Text" <;>
      simp [scanStep, hc, ht, List.find?, isChoiceTyped,
        not_or.mp hc, Option.none_or]

lemma scanStep_snd (acc : Option Question × Option Question) (q : Question) :
    (scanStep acc q).2 = (List.find? isTextTyped [q]).or acc.2 := by
  by_cases hc : qtypeOf q = "RadioButton" ∨ qtypeOf q = "CheckBox"
  · simp [scanStep, hc, List.find?, isTextTyped, isChoiceTyped]
  · by_cases ht : qtypeOf q = "Text"
    · simp [scanStep, hc, ht, List.find?, isTextTyped, isChoiceTyped, beq_iff_eq]
    · have hb : (qtypeOf q == "Text") = false := beq_eq_false_iff_ne.mpr ht
      simp [scanStep, hc, ht, List.find?, isTextTyped, isChoiceTyped, hb]

/-- The scan keeps the last question passing each branch test:
`choice_question` is the last choice-typed entry, `text_question` the last
text-typed entry. -/
lemma scanQG_eq (qs : List Question) :
    scanQG qs = (qs.reverse.find? isChoiceTyped, qs.reverse.find? isTextTyped) := by
  suffices h : ∀ acc, qs.foldl scanStep acc =
      ((qs.reverse.find? isChoiceTyped).or acc.1,
       (qs.reverse.find? isTextTyped).or acc.2) by
    simpa [scanQG, Option.or_none] using h (none, none)
  induction qs with
  | nil => intro acc; simp
  | cons q rest ih =>
    intro acc
    simp only [List.foldl_cons, List.reverse_cons, List.find?_append]
    rw [ih (scanStep acc q), Option.or_assoc, Option.or_assoc,
      ← scanStep_fst, ← scanStep_snd]

lemma scanQG_fst_mem {qs : List Question} {q : Question}
    (h : (scanQG qs).1 = some q) : q ∈ qs := by
  rw [scanQG_eq] at h
  exact List.mem_reverse.mp (List.mem_of_find?_eq_some h)

lemma scanQG_snd_mem {qs : List Question} {q : Question}
    (h : (scanQG qs).2 = some q) : q ∈ qs := by
  rw [scanQG_eq] at h
  exact List.mem_reverse.mp (List.mem_of_find?_eq_some h)

/-- Merging a text answer into a choice question never changes its
`question_text`. -/
lemma qtextOf_mergeBody (cq tq : Question) :
    qtextOf (mergeBody cq tq) = qtextOf cq := by
  unfold mergeBody
  by_cases h : pyStrip (getAnswer tq) = ""
  · simp [h]
  · cases cq <;> simp [h, qtextOf]

/-- The merged record of a group keeps the `question_text` of one of the
group's members. -/
lemma qtextOf_mergeQuestionGroup {qs : List Question} (h : qs ≠ []) :
    ∃ q ∈ qs, qtextOf (mergeQuestionGroup qs) = qtextOf q := by
  unfold mergeQuestionGroup
  rcases hs : scanQG qs with ⟨c?, t?⟩
  cases c? with
  | none =>
    exact ⟨qs.headD (.text { question_text := "", answer := "", field_name := "" }),
      headD_mem h _, rfl⟩
  | some cq =>
    cases t? with
    | none =>
      exact ⟨qs.headD (.text { question_text := "", answer := "", field_name := "" }),
        headD_mem h _, rfl⟩
    | some tq =>
      refine ⟨cq, scanQG_fst_mem (by rw [hs]), ?_⟩
      exact qtextOf_mergeBody cq tq

/-! ### Lemmas about option deduplication and the merge update -/

lemma labels_mergeFirst (oi : OptionInfo) :
    ∀ l : List OptionInfo,
      (mergeFirst oi l).map (fun o => o.label) = l.map (fun o => o.label) := by
  intro l
  induction l with
  | nil => rfl
  | cons e rest ih =>
    by_cases h : e.label = oi.label <;> simp [mergeFirst, h, ih]

lemma labels_updFirst (ta : String) :
    ∀ l : List OptionInfo,
      (updFirst ta l).map (fun o => o.label) = l.map (fun o => o.label) := by
  intro l
  induction l with
  | nil => rfl
  | cons e rest ih =>
    by_cases h : e.label = some ta <;> simp [updFirst, h, ih]

lemma length_updFirst (ta : String) :
    ∀ l : List OptionInfo, (updFirst ta l).length = l.length := by
  intro l
  induction l with
  | nil => rfl
  | cons e rest ih =>
    by_cases h : e.label = some ta <;> simp [updFirst, h, ih]

/-- When a matching label exists, the update leaves a selected entry in the
list. -/
lemma exists_selected_updFirst (ta : String) :
    ∀ l : List OptionInfo, (∃ o ∈ l, o.label = some ta) →
      ∃ e ∈ updFirst ta l, e.is_selected = true := by
  intro l
  induction l with
  | nil => rintro ⟨o, ho, _⟩; simp at ho
  | cons e rest ih =>
    rintro ⟨o, ho, hlab⟩
    by_cases h : e.label = some ta
    · refine ⟨{ e with is_selected := true,
                       source_type := (if truthyOpt e.source_type then e.source_type else some "Text"),
                       field_value := (if truthyOpt e.field_value then e.field_value else some ta) },
        ?_, rfl⟩
      simp [updFirst, h]
    · rcases List.mem_cons.mp ho with rfl | ho'
      · exact absurd hlab h
      · obtain ⟨e', he', hsel⟩ := ih ⟨o, ho', hlab⟩
        exact ⟨e', by simp [updFirst, h, he'], hsel⟩

/-- The labels of the deduplicated option list are pairwise distinct. -/
lemma nodup_labels_dedupOptions (l : List OptionInfo) :
    ((dedupOptions l).map (fun o => o.label)).Nodup := by
  suffices h : ∀ acc : List OptionInfo, (acc.map (fun o => o.label)).Nodup →
      ((l.foldl insertOption acc).map (fun o => o.label)).Nodup by
    exact h [] (by simp)
  induction l with
  | nil => exact fun acc h => h
  | cons oi rest ih =>
    intro acc hacc
    simp only [List.foldl_cons]
    refine ih _ ?_
    unfold insertOption
    by_cases h : acc.any (fun e => e.label = oi.label)
    · rw [if_pos h, labels_mergeFirst]
      exact hacc
    · rw [if_neg h]
      have hnm : oi.label ∉ acc.map (fun o => o.label) := by
        intro hm
        obtain ⟨e, he, hlab⟩ := List.mem_map.mp hm
        exact h (List.any_eq_true.mpr ⟨e, he, by simp [hlab]⟩)
      rw [List.map_append]
      simp [List.nodup_append, hacc, hnm]

/-! ### Invariant preservation through the merge pass -/

/-- A property of questions that `mergeBody` preserves is preserved by
`_merge_question_group` on a non-empty group. -/
lemma mergeQuestionGroup_preserves (P : Question → Prop)
    (hmb : ∀ cq tq, P cq → P (mergeBody cq tq))
    {qs : List Question} (hne : qs ≠ []) (hall : ∀ q ∈ qs, P q) :
    P (mergeQuestionGroup qs) := by
  unfold mergeQuestionGroup
  rcases hs : scanQG qs with ⟨c?, t?⟩
  cases c? with
  | none => exact hall _ (headD_mem hne _)
  | some cq =>
    cases t? with
    | none => exact hall _ (headD_mem hne _)
    | some tq =>
      exact hmb cq tq (hall cq (scanQG_fst_mem (by rw [hs])))

/-- A property holding of every question emitted by the Question Structurer
and preserved by `mergeBody` holds of every question of the final
pipeline output. -/
lemma pipeline_invariant (enh : String → String) (pdfName : String)
    (raw_fields : List Field) (P : Question → Prop)
    (hsg : ∀ base fields q, q ∈ structureGroup enh base fields → P q)
    (hmb : ∀ cq tq, P cq → P (mergeBody cq tq)) :
    ∀ q ∈ (pipeline enh pdfName raw_fields).questions, P q := by
  intro q hq
  have hall : ∀ q' ∈ (structureFormData enh pdfName raw_fields).questions, P q' := by
    intro q' hq'
    simp only [structureFormData, List.mem_flatMap] at hq'
    obtain ⟨g, _, hmem⟩ := hq'
    exact hsg g.1 g.2 q' hmem
  unfold pipeline mergeDuplicateQuestions at hq
  by_cases hnil : (structureFormData enh pdfName raw_fields).questions = []
  · rw [if_pos hnil] at hq
    exact hall q hq
  · rw [if_neg hnil] at hq
    simp only [List.mem_map] at hq
    obtain ⟨g, hg, rfl⟩ := hq
    have hne : g.2 ≠ [] := ne_nil_of_mem_groupByKey qtextOf _ hg
    have hsub : ∀ x ∈ g.2, P x := fun x hx =>
      hall x (mem_of_mem_groupByKey qtextOf _ hg x hx)
    unfold mergeGroupStep
    by_cases hlen : g.2.length = 1
    · rw [if_pos hlen]
      exact hsub _ (headD_mem hne _)
    · rw [if_neg hlen]
      exact mergeQuestionGroup_preserves P hmb hne hsub

/-- Every question emitted by the Question Structurer for one group is
either a text question, or the choice question built from the deduplicated
option list of that group. -/
lemma structureGroup_cases (enh : String → String) (base : String)
    (fields : List Field) (q : Question) (hq : q ∈ structureGroup enh base fields) :
    (∃ t, q = Question.text t) ∨
    ∃ qt ty, q = Question.choice
      { question_text := qt
        qtype := ty
        selected_answers :=
          (if (((dedupOptions (rawOptionInfos enh none fields)).filter
                  (fun o => o.is_selected)).map (fun o => o.label)) ≠ [] then
            (((dedupOptions (rawOptionInfos enh none fields)).filter
                (fun o => o.is_selected)).map (fun o => o.label))
          else [some "None"])
        all_options := (dedupOptions (rawOptionInfos enh none fields)).map
          (fun o => o.label)
        options_details := dedupOptions (rawOptionInfos enh none fields)
        total_options := (dedupOptions (rawOptionInfos enh none fields)).length } := by
  cases fields with
  | nil => simp [structureGroup] at hq
  | cons f0 rest =>
    simp only [structureGroup] at hq
    by_cases hc : rest = [] ∧ f0.ftype = "Text"
    · rw [if_pos hc] at hq
      simp only [List.mem_singleton] at hq
      exact Or.inl ⟨_, hq⟩
    · rw [if_neg hc] at hq
      simp only [List.mem_singleton] at hq
      exact Or.inr ⟨_, _, hq⟩

lemma mergeBody_blank {cq tq : Question} (h : pyStrip (getAnswer tq) = "") :
    mergeBody cq tq = cq := by
  unfold mergeBody
  rw [if_pos h]

lemma mergeBody_choice {c : ChoiceQ} {tq : Question}
    (hta : pyStrip (getAnswer tq) ≠ "") :
    mergeBody (.choice c) tq = .choice
      { c with
        selected_answers :=
          (if c.selected_answers ≠ [] ∧ c.selected_answers ≠ [some "None"] then
            c.selected_answers ++ [some (pyStrip (getAnswer tq))]
          else [some (pyStrip (getAnswer tq))])
        all_options :=
          (if (some (pyStrip (getAnswer tq))) ∈ c.all_options then c.all_options
          else c.all_options ++ [some (pyStrip (getAnswer tq))])
        options_details := mergeOd (pyStrip (getAnswer tq)) (getFieldName tq)
          c.options_details
        total_options := (mergeOd (pyStrip (getAnswer tq)) (getFieldName tq)
          c.options_details).length } := by
  unfold mergeBody
  rw [if_neg hta]

/-- The merged option list always contains a selected entry. -/
lemma exists_selected_mergeOd (ta : String) (fname : Option String)
    (od : List OptionInfo) :
    ∃ e ∈ mergeOd ta fname od, e.is_selected = true := by
  rcases hf : od.find? (fun o => o.label = some ta) with _ | o
  · simp only [mergeOd, hf]
    exact ⟨{ label := some ta, field_name := fname, field_value := some ta,
             is_selected := true, source_type := some "Text" },
      List.mem_append_right od (List.mem_singleton_self _), rfl⟩
  · simp only [mergeOd, hf]
    have hmem : o ∈ od := List.mem_of_find?_eq_some hf
    have hlab : o.label = some ta := by
      have := List.find?_some hf
      simpa using this
    exact exists_selected_updFirst ta od ⟨o, hmem, hlab⟩

/-- The labels of the merged option list: unchanged when the text answer's
label already occurs, extended by that label otherwise. -/
lemma labels_mergeOd (ta : String) (fname : Option String)
    (od : List OptionInfo) :
    (mergeOd ta fname od).map (fun o => o.label) =
      (if od.any (fun o => o.label = some ta) then od.map (fun o => o.label)
      else od.map (fun o => o.label) ++ [some ta]) := by
  rcases hf : od.find? (fun o => o.label = some ta) with _ | o
  · have hany : od.any (fun o => decide (o.label = some ta)) = false :=
      List.any_eq_false.mpr (List.find?_eq_none.mp hf)
    simp only [mergeOd, hf]
    simp [hany]
  · have hmem : o ∈ od := List.mem_of_find?_eq_some hf
    have hp := List.find?_some hf
    have hany : od.any (fun o => decide (o.label = some ta)) = true :=
      List.any_eq_true.mpr ⟨o, hmem, hp⟩
    simp only [mergeOd, hf]
    simp [hany, labels_updFirst]

/-! ### Idempotence of the duplicate-question merger -/

/-- The question text of a merged group is the group's key. -/
lemma qtextOf_mergeGroupStep {qs : List Question} {g : String × List Question}
    (hg : g ∈ groupByKey qtextOf qs) : qtextOf (mergeGroupStep g) = g.1 := by
  have hne := ne_nil_of_mem_groupByKey qtextOf qs hg
  have hkey := key_of_mem_groupByKey qtextOf qs hg
  unfold mergeGroupStep
  by_cases hlen : g.2.length = 1
  · rw [if_pos hlen]
    exact hkey _ (headD_mem hne _)
  · rw [if_neg hlen]
    obtain ⟨q, hqmem, heq⟩ := qtextOf_mergeQuestionGroup hne
    rw [heq]
    exact hkey q hqmem

lemma mergeGroupStep_singleton (q : Question) :
    mergeGroupStep (qtextOf q, [q]) = q := by
  simp [mergeGroupStep]

/-- C8: the Duplicate-Question Merger is idempotent: applying
`_merge_duplicate_questions` to its own output changes nothing (no
question, no `total_questions`, no `questions_with_selections`). -/
theorem C8_merger_idempotent (res : ExtractionResult) :
    mergeDuplicateQuestions (mergeDuplicateQuestions res) =
      mergeDuplicateQuestions res := by
  by_cases hnil : res.questions = []
  · have h1 : mergeDuplicateQuestions res = res := by
      unfold mergeDuplicateQuestions
      rw [if_pos hnil]
    rw [h1, h1]
  · have h1 : mergeDuplicateQuestions res =
        { res with
          questions := (groupByKey qtextOf res.questions).map mergeGroupStep
          total_questions :=
            ((groupByKey qtextOf res.questions).map mergeGroupStep).length
          extraction_summary :=
            { res.extraction_summary with
              questions_with_selections :=
                (((groupByKey qtextOf res.questions).map
                  mergeGroupStep).filter hasAnswer).length } } := by
      unfold mergeDuplicateQuestions
      rw [if_neg hnil]
    set merged := (groupByKey qtextOf res.questions).map mergeGroupStep with hm
    have htexts : merged.map qtextOf = (groupByKey qtextOf res.questions).map Prod.fst := by
      rw [hm, List.map_map]
      exact List.map_congr_left (fun g hg => qtextOf_mergeGroupStep hg)
    have hnd : (merged.map qtextOf).Nodup := by
      rw [htexts]
      exact keys_nodup_groupByKey _ _
    have hmne : merged ≠ [] := by
      rw [hm]
      intro he
      exact groupByKey_ne_nil qtextOf res.questions hnil (List.map_eq_nil_iff.mp he)
    have hg2 : groupByKey qtextOf merged = merged.map (fun q => (qtextOf q, [q])) := by
      simpa [groupByKey] using
        groupByKey_of_nodup_keys qtextOf merged [] (by simp) hnd
    have hstep2 : (merged.map (fun q => (qtextOf q, [q]))).map mergeGroupStep = merged := by
      rw [List.map_map]
      have hcong : ∀ q ∈ merged,
          (mergeGroupStep ∘ fun q => (qtextOf q, [q])) q = id q := by
        intro q _
        simp [mergeGroupStep_singleton]
      rw [List.map_congr_left hcong, List.map_id]
    rw [h1]
    unfold mergeDuplicateQuestions
    dsimp only
    rw [if_neg hmne, hg2, hstep2]

/-- C5: the selection predicate is a pure total function over widget
records: for a RadioButton or CheckBox widget it returns true iff
`field_value` is not in `Off`, null, `""`; for a Text widget it returns
true iff the whitespace-trimmed value is non-empty; for a widget of any
other type it returns false. -/
theorem C5_selection_predicate (f : Field) :
    isFieldSelected f = true ↔
      (((f.ftype = "RadioButton" ∨ f.ftype = "CheckBox") ∧
          f.value ≠ none ∧ f.value ≠ some "Off" ∧ f.value ≠ some "") ∨
        (f.ftype = "Text" ∧ ∃ v, f.value = some v ∧ pyStrip v ≠ "")) := by
  unfold isFieldSelected
  rcases hv : f.value with _ | v <;> split_ifs <;> simp_all

/-- C6: when no word on the page is simultaneously vertically aligned with
the widget's midpoint (within the tolerance of 3) and positioned to the
widget's right within the maximum horizontal distance of 150, the Label
Resolver returns null, never an empty string and never a distant word. -/
theorem C6_no_candidate_returns_null (enh : String → String)
    (widget_rect : WRect) (words : List Word)
    (h : ∀ w ∈ words,
      ¬(|(w.y0 + w.y1) / 2 - (widget_rect.y0 + widget_rect.y1) / 2| ≤ 3 ∧
        w.x0 > widget_rect.x1 ∧ w.x0 - widget_rect.x1 ≤ 150)) :
    findLabelForWidget enh widget_rect words = none := by
  have hmap : words.filterMap (fun w =>
      if |(w.y0 + w.y1) / 2 - (widget_rect.y0 + widget_rect.y1) / 2| ≤ 3 ∧
          w.x0 > widget_rect.x1 ∧ w.x0 - widget_rect.x1 ≤ 150 then
        some (w.x0, w.text)
      else none) = [] :=
    List.filterMap_eq_nil_iff.mpr (fun w hw => by rw [if_neg (h w hw)])
  unfold findLabelForWidget
  dsimp only
  rw [hmap]
  rw [if_pos rfl]

lemma mergeBody_text {t : TextQ} {tq : Question}
    (hta : pyStrip (getAnswer tq) ≠ "") :
    mergeBody (.text t) tq = .text t := by
  unfold mergeBody
  rw [if_neg hta]

/-- C4: in the final pipeline output, a choice question none of whose
options is selected carries the `["None"]` sentinel as its
`selected_answers`, never the empty list.  The sentinel is introduced by
the Question Structurer (`selected_options if selected_options else
["None"]`) and the Duplicate-Question Merger only replaces it when a
non-blank text answer is merged in, which also marks an option selected,
so the implication is preserved. -/
theorem C4_none_sentinel (enh : String → String) (pdfName : String)
    (raw_fields : List Field) (q : Question) (c : ChoiceQ)
    (hq : q ∈ (pipeline enh pdfName raw_fields).questions)
    (hqc : q = Question.choice c)
    (hns : ∀ o ∈ c.options_details, o.is_selected = false) :
    c.selected_answers = [some "None"] := by
  refine pipeline_invariant enh pdfName raw_fields
    (fun q => ∀ c, q = Question.choice c →
      (∀ o ∈ c.options_details, o.is_selected = false) →
      c.selected_answers = [some "None"])
    ?_ ?_ q hq c hqc hns
  · intro base fields q' hq' c' heq hns'
    rcases structureGroup_cases enh base fields q' hq' with ⟨t, rfl⟩ | ⟨qt, ty, rfl⟩
    · exact absurd heq (by simp)
    · rw [Question.choice.injEq] at heq
      subst heq
      simp only at hns' ⊢
      have hfil : (dedupOptions (rawOptionInfos enh none fields)).filter
          (fun o => o.is_selected) = [] := by
        rw [List.filter_eq_nil_iff]
        intro o ho
        simp [hns' o ho]
      rw [if_neg (by simp [hfil])]
  · intro cq tq hP c' heq hns'
    by_cases hta : pyStrip (getAnswer tq) = ""
    · rw [mergeBody_blank hta] at heq
      exact hP c' heq hns'
    · cases cq with
      | text t =>
        rw [mergeBody_text hta] at heq
        exact absurd heq (by simp)
      | choice c0 =>
        rw [mergeBody_choice hta, Question.choice.injEq] at heq
        subst heq
        simp only at hns'
        obtain ⟨e, he, hsel⟩ := exists_selected_mergeOd (pyStrip (getAnswer tq))
          (getFieldName tq) c0.options_details
        exact absurd hsel (by simp [hns' e he])

/-- C10: in the final pipeline output, `all_options` of every choice
question is exactly the sequence of labels of `options_details` (same
elements, same order) and `total_options` is the length of
`options_details`; the Question Structurer establishes this and the
Duplicate-Question Merger preserves it. -/
theorem C10_all_options_consistent (enh : String → String) (pdfName : String)
    (raw_fields : List Field) (q : Question) (c : ChoiceQ)
    (hq : q ∈ (pipeline enh pdfName raw_fields).questions)
    (hqc : q = Question.choice c) :
    c.all_options = c.options_details.map (fun o => o.label) ∧
      c.total_options = c.options_details.length := by
  refine pipeline_invariant enh pdfName raw_fields
    (fun q => ∀ c, q = Question.choice c →
      c.all_options = c.options_details.map (fun o => o.label) ∧
      c.total_options = c.options_details.length)
    ?_ ?_ q hq c hqc
  · intro base fields q' hq' c' heq
    rcases structureGroup_cases enh base fields q' hq' with ⟨t, rfl⟩ | ⟨qt, ty, rfl⟩
    · exact absurd heq (by simp)
    · rw [Question.choice.injEq] at heq
      subst heq
      exact ⟨rfl, rfl⟩
  · intro cq tq hP c' heq
    by_cases hta : pyStrip (getAnswer tq) = ""
    · rw [mergeBody_blank hta] at heq
      exact hP c' heq
    · cases cq with
      | text t =>
        rw [mergeBody_text hta] at heq
        exact absurd heq (by simp)
      | choice c0 =>
        rw [mergeBody_choice hta, Question.choice.injEq] at heq
        subst heq
        obtain ⟨h1, _⟩ := hP c0 rfl
        dsimp only
        refine ⟨?_, rfl⟩
        rw [labels_mergeOd]
        by_cases hany : c0.options_details.any
            (fun o => o.label = some (pyStrip (getAnswer tq)))
        · have hmem : (some (pyStrip (getAnswer tq))) ∈ c0.all_options := by
            rw [h1]
            obtain ⟨o, ho, hlab⟩ := List.any_eq_true.mp hany
            exact List.mem_map.mpr ⟨o, ho, by simpa using hlab⟩
          rw [if_pos hmem, if_pos hany, h1]
        · have hmem : (some (pyStrip (getAnswer tq))) ∉ c0.all_options := by
            rw [h1]
            intro hm
            obtain ⟨o, ho, hlab⟩ := List.mem_map.mp hm
            exact hany (List.any_eq_true.mpr ⟨o, ho, by simp [hlab]⟩)
          rw [if_neg hmem, if_neg hany, h1]

lemma combineFieldValue_eq (a b : Option String) :
    combineFieldValue a b =
      (if truthyOpt a ∧ truthyOpt b then
        some ((a.getD "") ++ ", " ++ (b.getD ""))
      else if truthyOpt b then b else a) := by
  unfold combineFieldValue
  by_cases hb : truthyOpt b <;> by_cases ha : truthyOpt a <;> simp [ha, hb]

/-- C3 (amended): in the final pipeline output no two entries of
`options_details` of a choice question have an identical label; and when
two widgets of a group yield the same option label the options are merged
by taking the logical OR of `is_selected` and concatenating the non-empty
raw field values with the separator `", "` in encounter order — with
repeated values concatenated again, not removed (the claim's word
"distinct" does not hold, see the counterexample). -/
theorem C3_dedup_invariant_and_merge_rule :
    (∀ (enh : String → String) (pdfName : String) (raw_fields : List Field)
        (q : Question) (c : ChoiceQ),
        q ∈ (pipeline enh pdfName raw_fields).questions →
        q = Question.choice c →
        (c.options_details.map (fun o => o.label)).Nodup) ∧
    (∀ o1 o2 : OptionInfo, o1.label = o2.label →
        dedupOptions [o1, o2] =
          [{ o1 with
             is_selected := o1.is_selected || o2.is_selected,
             field_value :=
               (if truthyOpt o1.field_value ∧ truthyOpt o2.field_value then
                 some ((o1.field_value.getD "") ++ ", " ++ (o2.field_value.getD ""))
               else if truthyOpt o2.field_value then o2.field_value
               else o1.field_value) }]) := by
  constructor
  · intro enh pdfName raw_fields q c hq hqc
    refine pipeline_invariant enh pdfName raw_fields
      (fun q => ∀ c, q = Question.choice c →
        (c.options_details.map (fun o => o.label)).Nodup)
      ?_ ?_ q hq c hqc
    · intro base fields q' hq' c' heq
      rcases structureGroup_cases enh base fields q' hq' with ⟨t, rfl⟩ | ⟨qt, ty, rfl⟩
      · exact absurd heq (by simp)
      · rw [Question.choice.injEq] at heq
        subst heq
        exact nodup_labels_dedupOptions _
    · intro cq tq hP c' heq
      by_cases hta : pyStrip (getAnswer tq) = ""
      · rw [mergeBody_blank hta] at heq
        exact hP c' heq
      · cases cq with
        | text t =>
          rw [mergeBody_text hta] at heq
          exact absurd heq (by simp)
        | choice c0 =>
          rw [mergeBody_choice hta, Question.choice.injEq] at heq
          subst heq
          dsimp only
          rw [labels_mergeOd]
          by_cases hany : c0.options_details.any
              (fun o => o.label = some (pyStrip (getAnswer tq)))
          · rw [if_pos hany]
            exact hP c0 rfl
          · rw [if_neg hany]
            have hnm : (some (pyStrip (getAnswer tq))) ∉
                c0.options_details.map (fun o => o.label) := by
              intro hm
              obtain ⟨o, ho, hlab⟩ := List.mem_map.mp hm
              exact hany (List.any_eq_true.mpr ⟨o, ho, by simp [hlab]⟩)
            simp [List.nodup_append, hP c0 rfl, hnm]
  · intro o1 o2 h
    have h' : (o1.label = o2.label) := h
    simp [dedupOptions, insertOption, mergeFirst, h', combineFieldValue_eq]

/-- C3 counterexample: two CheckBox widgets of one group with the same
resolved label `"L"` and the same non-empty raw value `"Yes"` yield one
merged option whose `field_value` is `"Yes, Yes"`: the code concatenates
the non-empty raw values without removing duplicates, whereas merging
"distinct non-empty raw field values" as the claim states would yield
`"Yes"`. -/
theorem C3_counterexample :
    (pipeline (fun s => s) "doc"
      [⟨"G_0_a", "CheckBox", some "Yes", some "L", some "GT"⟩,
       ⟨"G_1_b", "CheckBox", some "Yes", some "L", none⟩]).questions =
      [Question.choice
        { question_text := "GT"
          qtype := "CheckBox"
          selected_answers := [some "L"]
          all_options := [some "L"]
          options_details := [⟨some "L", some "G_0_a", some "Yes, Yes", true, none⟩]
          total_options := 1 }] := by
  decide

/-- Concrete run for the C3 witness. -/
def c3wFields : List Field :=
  [⟨"W_0_a", "CheckBox", some "Off", some "A", some "WT"⟩,
   ⟨"W_1_b", "CheckBox", some "Yes", some "B", none⟩]

/-- The choice question produced by `c3wFields`. -/
def c3wChoice : ChoiceQ :=
  { question_text := "WT"
    qtype := "CheckBox"
    selected_answers := [some "B"]
    all_options := [some "A", some "B"]
    options_details :=
      [⟨some "A", some "W_0_a", some "Off", false, none⟩,
       ⟨some "B", some "W_1_b", some "Yes", true, none⟩]
    total_options := 2 }

theorem C3_witness :
    (Question.choice c3wChoice ∈ (pipeline (fun s => s) "w" c3wFields).questions ∧
      Question.choice c3wChoice = Question.choice c3wChoice) ∧
    (c3wChoice.options_details.map (fun o => o.label)).Nodup :=
  ⟨⟨by decide, rfl⟩,
    C3_dedup_invariant_and_merge_rule.1 (fun s => s) "w" c3wFields
      (Question.choice c3wChoice) c3wChoice (by decide) rfl⟩

/-! ### The Field Grouper is a partition of the non-empty-named widgets -/

lemma mem_lookupG_groupFields {fs : List Field} {f : Field}
    (hf : f ∈ fs) (hn : f.name ≠ "") :
    f ∈ lookupG (baseKey f.name) (groupFields fs) := by
  unfold groupFields
  rw [lookupG_groupByKey]
  rw [List.mem_filter]
  exact ⟨List.mem_filter.mpr ⟨hf, by simp [hn]⟩, by simp⟩

/-- C9 counterexample: a widget whose `field_name` is falsy is skipped by
the grouper (`if not field_name: continue`) and therefore belongs to no
group at all, refuting "every widget belongs to exactly one group" for
such an input. -/
theorem C9_counterexample :
    groupFields [⟨"", "Text", none, none, none⟩] = [] ∧
      (⟨"", "Text", none, none, none⟩ : Field) ∈
        [(⟨"", "Text", none, none, none⟩ : Field)] := by
  constructor
  · decide
  · simp

/-- C9 (amended): every widget with a non-empty `field_name` belongs to
exactly one group of the Field Grouper, keyed by the base key obtained by
stripping the trailing positional patterns; a widget with an empty name is
skipped and belongs to no group.  Two non-empty-named widgets with the same
base key land in the same group, and grouping is stable under reordering:
for any permutation of the input, each key's group is permuted
accordingly. -/
theorem C9_grouper_partition :
    (∀ (fs : List Field) (f : Field), f ∈ fs → f.name ≠ "" →
      ∃ g, g ∈ groupFields fs ∧ f ∈ g.2 ∧ g.1 = baseKey f.name ∧
        ∀ g' ∈ groupFields fs, f ∈ g'.2 → g' = g) ∧
    (∀ (fs : List Field) (f f' : Field), f ∈ fs → f' ∈ fs →
      f.name ≠ "" → f'.name ≠ "" → baseKey f.name = baseKey f'.name →
      ∃ g ∈ groupFields fs, f ∈ g.2 ∧ f' ∈ g.2) ∧
    (∀ (l₁ l₂ : List Field) (k : String), l₁.Perm l₂ →
      (lookupG k (groupFields l₁)).Perm (lookupG k (groupFields l₂))) := by
  have hnodup : ∀ fs : List Field, ((groupFields fs).map Prod.fst).Nodup :=
    fun fs => keys_nodup_groupByKey _ _
  have hkeymem : ∀ (fs : List Field) (g : String × List Field),
      g ∈ groupFields fs → ∀ x ∈ g.2, baseKey x.name = g.1 :=
    fun fs g hg => key_of_mem_groupByKey _ _ hg
  have hex : ∀ (fs : List Field) (f : Field), f ∈ fs → f.name ≠ "" →
      ∃ g, g ∈ groupFields fs ∧ f ∈ g.2 ∧ g.1 = baseKey f.name ∧
        ∀ g' ∈ groupFields fs, f ∈ g'.2 → g' = g := by
    intro fs f hf hn
    have hmem := mem_lookupG_groupFields hf hn
    rcases hfind : (groupFields fs).find? (fun g => g.1 = baseKey f.name) with _ | g
    · rw [lookupG, hfind] at hmem
      simp at hmem
    · have hgmem : g ∈ groupFields fs := List.mem_of_find?_eq_some hfind
      have hgkey : g.1 = baseKey f.name := by
        have := List.find?_some hfind
        simpa using this
      have hfg : f ∈ g.2 := by
        rw [lookupG, hfind] at hmem
        exact hmem
      refine ⟨g, hgmem, hfg, hgkey, ?_⟩
      intro g' hg' hfg'
      refine eq_of_mem_nodup_keys _ (hnodup fs) g' hg' g hgmem ?_
      rw [hgkey]
      exact (hkeymem fs g' hg' f hfg').symm
  refine ⟨hex, ?_, ?_⟩
  · intro fs f f' hf hf' hn hn' hkey
    obtain ⟨g, hg, hfg, hgkey, huniq⟩ := hex fs f hf hn
    obtain ⟨g', hg', hfg', hgkey', _⟩ := hex fs f' hf' hn'
    have : g' = g := by
      refine eq_of_mem_nodup_keys _ (hnodup fs) g' hg' g hg ?_
      rw [hgkey, hgkey', hkey]
    exact ⟨g, hg, hfg, this ▸ hfg'⟩
  · intro l₁ l₂ k hperm
    unfold groupFields
    rw [lookupG_groupByKey, lookupG_groupByKey]
    exact (hperm.filter _).filter _

/-- Concrete widget for the C9 witness. -/
def c9wField : Field := ⟨"Q_0_a", "CheckBox", some "Off", none, none⟩

theorem C9_witness :
    (c9wField ∈ [c9wField] ∧ c9wField.name ≠ "") ∧
    ∃ g, g ∈ groupFields [c9wField] ∧ c9wField ∈ g.2 ∧
      g.1 = baseKey c9wField.name ∧
      ∀ g' ∈ groupFields [c9wField], c9wField ∈ g'.2 → g' = g :=
  ⟨⟨by simp, by decide⟩,
    C9_grouper_partition.1 [c9wField] c9wField (by simp) (by decide)⟩

/-! ### Order dependence of the structured output -/

/-- First widget of the C2 counterexample: a selected CheckBox of group
`A` whose form-defined label is `"T1"`. -/
def c2f1 : Field := ⟨"A_0_x", "CheckBox", some "Yes", some "o1", some "T1"⟩

/-- Second widget of the C2 counterexample: an unselected CheckBox of the
same group `A`, with form-defined label `"T2"`. -/
def c2f2 : Field := ⟨"A_1_y", "CheckBox", some "Off", some "o2", some "T2"⟩

/-- Third widget of the C2 counterexample: a lone Text widget whose
form-defined label `"T1"` coincides with `c2f1`'s. -/
def c2f3 : Field := ⟨"B", "Text", some "ans", some "L", some "T1"⟩

/-- C2 counterexample: permuting the first two widgets changes the derived
`question_text` of group `A` (the structurer takes the first truthy
form-defined label), which changes whether the merger fuses the choice
question with the text question: `total_questions` is 1 for one order and
2 for the other, and `questions_with_selections` is 1 versus 2. -/
theorem C2_counterexample :
    ([c2f1, c2f2, c2f3] : List Field).Perm [c2f2, c2f1, c2f3] ∧
    (pipeline (fun s => s) "doc" [c2f1, c2f2, c2f3]).total_questions = 1 ∧
    (pipeline (fun s => s) "doc" [c2f2, c2f1, c2f3]).total_questions = 2 ∧
    (pipeline (fun s => s) "doc"
      [c2f1, c2f2, c2f3]).extraction_summary.questions_with_selections = 1 ∧
    (pipeline (fun s => s) "doc"
      [c2f2, c2f1, c2f3]).extraction_summary.questions_with_selections = 2 :=
  ⟨List.Perm.swap c2f2 c2f1 [c2f3], by decide, by decide, by decide, by decide⟩

/-- C2 (amended): permuting the input widget sequence leaves
`total_fields_found` and the base-key partition unchanged (each group is
permuted accordingly), but `total_questions`,
`questions_with_selections` and individual Question content may change
with the order (see the counterexample): within a group, the derived
question text and the option labels depend on the widget order. -/
theorem C2_order_independence_amended (enh : String → String)
    (pdfName : String) (l₁ l₂ : List Field) (h : l₁.Perm l₂) :
    (structureFormData enh pdfName l₁).extraction_summary.total_fields_found =
      (structureFormData enh pdfName l₂).extraction_summary.total_fields_found ∧
    ∀ k, (lookupG k (groupFields l₁)).Perm (lookupG k (groupFields l₂)) := by
  constructor
  · show l₁.length = l₂.length
    exact h.length_eq
  · intro k
    unfold groupFields
    rw [lookupG_groupByKey, lookupG_groupByKey]
    exact (h.filter _).filter _

/-- Widgets for the C2 witness. -/
def c2wA : Field := ⟨"P_0_a", "CheckBox", some "Off", some "x", some "PT"⟩

def c2wB : Field := ⟨"P_1_b", "CheckBox", some "Yes", some "y", none⟩

theorem C2_witness :
    ([c2wA, c2wB] : List Field).Perm [c2wB, c2wA] ∧
    ((structureFormData (fun s => s) "w"
        [c2wA, c2wB]).extraction_summary.total_fields_found =
      (structureFormData (fun s => s) "w"
        [c2wB, c2wA]).extraction_summary.total_fields_found ∧
      ∀ k, (lookupG k (groupFields [c2wA, c2wB])).Perm
        (lookupG k (groupFields [c2wB, c2wA]))) :=
  ⟨List.Perm.swap c2wB c2wA [],
    C2_order_independence_amended (fun s => s) "w" [c2wA, c2wB] [c2wB, c2wA]
      (List.Perm.swap c2wB c2wA [])⟩

/-! ### The labelless Text companion also becomes an option -/

/-- C7 counterexample: the group `Q` holds a CheckBox and a Text widget
with no resolved label and value `"hello"`.  The Text widget's value is
used as the free-text companion, but the widget also produces its own
entry in `options_details` (labelled by its value, `source_type "Text"`,
`field_name "Q_edit;_a"`), refuting "does not itself produce an Option
entry". -/
theorem C7_counterexample :
    (pipeline (fun s => s) "doc"
      [⟨"Q_0_b", "CheckBox", some "Off", some "Opt", some "QT"⟩,
       ⟨"Q_edit;_a", "Text", some "hello", none, none⟩]).questions =
      [Question.choice
        { question_text := "QT"
          qtype := "CheckBox"
          selected_answers := [some "hello"]
          all_options := [some "Opt", some "hello"]
          options_details :=
            [⟨some "Opt", some "Q_0_b", some "Off", false, none⟩,
             ⟨some "hello", some "Q_edit;_a", some "hello", true, some "Text"⟩]
          total_options := 2 }] := by
  decide

/-- C7 (amended): inside a field group, a Text widget with no resolved
label and a truthy value sets the free-text companion `text_input_value`
to its value for the rest of the group AND produces its own option record
(labelled by that value, with `source_type "Text"`); only a labelless
Text widget with a falsy value is skipped and produces no option. -/
theorem C7_text_companion (enh : String → String) (tiv : Option String)
    (f : Field) (rest : List Field)
    (hty : f.ftype = "Text") (hlab : f.label = none) :
    (∀ v, f.value = some v → v ≠ "" →
      rawOptionInfos enh tiv (f :: rest) =
        { label := some v
          field_name := some f.name
          field_value := some v
          is_selected := isFieldSelected f
          source_type := some "Text" } :: rawOptionInfos enh (some v) rest) ∧
    ((f.value = none ∨ f.value = some "") →
      rawOptionInfos enh tiv (f :: rest) = rawOptionInfos enh tiv rest) := by
  constructor
  · intro v hv hvne
    obtain ⟨nm, ty, val, lab, flab⟩ := f
    simp only at hty hlab hv
    subst hty
    subst hlab
    subst hv
    simp [rawOptionInfos, mkOptionInfo, pyOr, truthyOpt, hvne]
  · intro hv
    obtain ⟨nm, ty, val, lab, flab⟩ := f
    simp only at hty hlab
    subst hty
    subst hlab
    rcases hv with hv | hv <;> simp only at hv <;> subst hv <;>
      simp [rawOptionInfos]

/-- Concrete instance for the C7 witness. -/
def c7wText : Field := ⟨"T_edit;_x", "Text", some "hi", none, none⟩

theorem C7_witness :
    (c7wText.ftype = "Text" ∧ c7wText.label = none ∧
      c7wText.value = some "hi" ∧ "hi" ≠ "") ∧
    rawOptionInfos (fun s => s) none [c7wText] =
      [{ label := some "hi"
         field_name := some "T_edit;_x"
         field_value := some "hi"
         is_selected := isFieldSelected c7wText
         source_type := some "Text" }] :=
  ⟨⟨rfl, rfl, rfl, by decide⟩,
    (C7_text_companion (fun s => s) none c7wText [] rfl rfl).1 "hi" rfl (by decide)⟩

/-! ### The duplicate-group merge of a choice question and a text question -/

/-- The option-list update of the merger, phrased by whether an option with
the merged label already exists. -/
lemma mergeOd_eq_ifany (ta : String) (fname : Option String)
    (od : List OptionInfo) :
    mergeOd ta fname od =
      (if od.any (fun o => o.label = some ta) then updFirst ta od
      else od ++ [{ label := some ta
                    field_name := fname
                    field_value := some ta
                    is_selected := true
                    source_type := some "Text" }]) := by
  rcases hf : od.find? (fun o => o.label = some ta) with _ | o
  · have hany : od.any (fun o => decide (o.label = some ta)) = false :=
      List.any_eq_false.mpr (List.find?_eq_none.mp hf)
    simp only [mergeOd, hf]
    simp [hany]
  · have hmem : o ∈ od := List.mem_of_find?_eq_some hf
    have hp := List.find?_some hf
    have hany : od.any (fun o => decide (o.label = some ta)) = true :=
      List.any_eq_true.mpr ⟨o, hmem, hp⟩
    simp only [mergeOd, hf]
    simp [hany]

/-- The selected-answers update of the merger equals the claim's phrasing:
a sole `["None"]` sentinel is replaced, any other content is appended to
(the empty list never occurs in practice; appending to it and replacing it
coincide). -/
lemma mergeSel_eq (sa : List (Option String)) (ta : String) :
    (if sa ≠ [] ∧ sa ≠ [some "None"] then sa ++ [some ta] else [some ta]) =
      (if sa = [some "None"] then [some ta] else sa ++ [some ta]) := by
  by_cases h1 : sa = [some "None"]
  · simp [h1]
  · by_cases h0 : sa = []
    · simp [h0]
    · simp [h0, h1]

/-- C1: when a duplicate-text group whose last choice-typed member is the
choice question `c` and whose last text-typed member is the text question
`t` is merged and `t`'s answer is non-blank after trimming, the merged
record is `c` (the TextQuestion is discarded) with: the trimmed answer
appended to `selected_answers` (replacing a sole `["None"]` sentinel);
the answer appended to `all_options` unless already present; and an option
`label = answer, is_selected = true, source_type = "Text"` appended to
`options_details` unless an option with that exact label exists, in which
case the first such option is marked selected, its falsy raw value is
backfilled with the answer, and a missing `source_type` is annotated
`"Text"` (`updFirst`). -/
theorem C1_merge_text_into_choice (qs : List Question) (c : ChoiceQ)
    (t : TextQ)
    (hc : qs.reverse.find? isChoiceTyped = some (Question.choice c))
    (ht : qs.reverse.find? isTextTyped = some (Question.text t))
    (hta : pyStrip t.answer ≠ "") :
    mergeQuestionGroup qs = Question.choice
      { c with
        selected_answers :=
          (if c.selected_answers = [some "None"] then [some (pyStrip t.answer)]
          else c.selected_answers ++ [some (pyStrip t.answer)])
        all_options :=
          (if (some (pyStrip t.answer)) ∈ c.all_options then c.all_options
          else c.all_options ++ [some (pyStrip t.answer)])
        options_details :=
          (if c.options_details.any (fun o => o.label = some (pyStrip t.answer))
          then updFirst (pyStrip t.answer) c.options_details
          else c.options_details ++
            [{ label := some (pyStrip t.answer)
               field_name := some t.field_name
               field_value := some (pyStrip t.answer)
               is_selected := true
               source_type := some "Text" }])
        total_options :=
          (if c.options_details.any (fun o => o.label = some (pyStrip t.answer))
          then updFirst (pyStrip t.answer) c.options_details
          else c.options_details ++
            [{ label := some (pyStrip t.answer)
               field_name := some t.field_name
               field_value := some (pyStrip t.answer)
               is_selected := true
               source_type := some "Text" }]).length } := by
  have hscan : scanQG qs = (some (Question.choice c), some (Question.text t)) := by
    rw [scanQG_eq, hc, ht]
  have hta' : pyStrip (getAnswer (Question.text t)) ≠ "" := hta
  unfold mergeQuestionGroup
  rw [hscan]
  show mergeBody (Question.choice c) (Question.text t) = _
  rw [mergeBody_choice hta']
  rw [Question.choice.injEq, ChoiceQ.mk.injEq]
  have hod := mergeOd_eq_ifany (pyStrip t.answer) (some t.field_name)
    c.options_details
  have hodg : mergeOd (pyStrip (getAnswer (Question.text t)))
      (getFieldName (Question.text t)) c.options_details =
      (if c.options_details.any (fun o => o.label = some (pyStrip t.answer))
      then updFirst (pyStrip t.answer) c.options_details
      else c.options_details ++
        [{ label := some (pyStrip t.answer)
           field_name := some t.field_name
           field_value := some (pyStrip t.answer)
           is_selected := true
           source_type := some "Text" }]) := hod
  exact ⟨rfl, rfl, mergeSel_eq c.selected_answers (pyStrip t.answer), rfl,
    hodg, by rw [hodg]⟩

/-- The choice question of the C1 witness: one unselected option, sentinel
selected answers. -/
def c1wChoice : ChoiceQ :=
  { question_text := "T"
    qtype := "CheckBox"
    selected_answers := [some "None"]
    all_options := [some "a"]
    options_details := [⟨some "a", some "n", some "Off", false, none⟩]
    total_options := 1 }

/-- The text question of the C1 witness. -/
def c1wText : TextQ := ⟨"T", " other ", "tn"⟩

theorem C1_witness :
    (([Question.choice c1wChoice, Question.text c1wText] :
        List Question).reverse.find? isChoiceTyped =
          some (Question.choice c1wChoice) ∧
      ([Question.choice c1wChoice, Question.text c1wText] :
        List Question).reverse.find? isTextTyped =
          some (Question.text c1wText) ∧
      pyStrip c1wText.answer ≠ "") ∧
    mergeQuestionGroup [Question.choice c1wChoice, Question.text c1wText] =
      Question.choice
        { c1wChoice with
          selected_answers :=
            (if c1wChoice.selected_answers = [some "None"] then
              [some (pyStrip c1wText.answer)]
            else c1wChoice.selected_answers ++ [some (pyStrip c1wText.answer)])
          all_options :=
            (if (some (pyStrip c1wText.answer)) ∈ c1wChoice.all_options then
              c1wChoice.all_options
            else c1wChoice.all_options ++ [some (pyStrip c1wText.answer)])
          options_details :=
            (if c1wChoice.options_details.any
                (fun o => o.label = some (pyStrip c1wText.answer))
            then updFirst (pyStrip c1wText.answer) c1wChoice.options_details
            else c1wChoice.options_details ++
              [{ label := some (pyStrip c1wText.answer)
                 field_name := some c1wText.field_name
                 field_value := some (pyStrip c1wText.answer)
                 is_selected := true
                 source_type := some "Text" }])
          total_options :=
            (if c1wChoice.options_details.any
                (fun o => o.label = some (pyStrip c1wText.answer))
            then updFirst (pyStrip c1wText.answer) c1wChoice.options_details
            else c1wChoice.options_details ++
              [{ label := some (pyStrip c1wText.answer)
                 field_name := some c1wText.field_name
                 field_value := some (pyStrip c1wText.answer)
                 is_selected := true
                 source_type := some "Text" }]).length } :=
  ⟨⟨by decide, by decide, by decide⟩,
    C1_merge_text_into_choice
      [Question.choice c1wChoice, Question.text c1wText] c1wChoice c1wText
      (by decide) (by decide) (by decide)⟩

/-! ### Remaining witnesses -/

/-- Input of the C4 witness: two unselected CheckBox widgets of one
group. -/
def c4wFields : List Field :=
  [⟨"N_0_a", "CheckBox", some "Off", some "x", some "NT"⟩,
   ⟨"N_1_b", "CheckBox", some "Off", some "y", none⟩]

/-- The choice question produced by `c4wFields`. -/
def c4wChoice : ChoiceQ :=
  { question_text := "NT"
    qtype := "CheckBox"
    selected_answers := [some "None"]
    all_options := [some "x", some "y"]
    options_details :=
      [⟨some "x", some "N_0_a", some "Off", false, none⟩,
       ⟨some "y", some "N_1_b", some "Off", false, none⟩]
    total_options := 2 }

theorem C4_witness :
    (Question.choice c4wChoice ∈ (pipeline (fun s => s) "w4" c4wFields).questions ∧
      (∀ o ∈ c4wChoice.options_details, o.is_selected = false)) ∧
    c4wChoice.selected_answers = [some "None"] :=
  ⟨⟨by decide, by decide⟩,
    C4_none_sentinel (fun s => s) "w4" c4wFields (Question.choice c4wChoice)
      c4wChoice (by decide) rfl (by decide)⟩

theorem C6_witness :
    (∀ w ∈ ([] : List Word),
      ¬(|(w.y0 + w.y1) / 2 - ((0 : ℚ) + 0) / 2| ≤ 3 ∧
        w.x0 > (0 : ℚ) ∧ w.x0 - (0 : ℚ) ≤ 150)) ∧
    findLabelForWidget (fun s => s) ⟨0, 0, 0, 0⟩ [] = none :=
  ⟨by simp,
    C6_no_candidate_returns_null (fun s => s) ⟨0, 0, 0, 0⟩ [] (by simp)⟩

/-- Input of the C10 witness: a RadioButton pair with one selection. -/
def c10wFields : List Field :=
  [⟨"R_0_y", "RadioButton", some "Yes", some "yes", some "RT"⟩,
   ⟨"R_1_n", "RadioButton", some "Off", some "no", none⟩]

/-- The choice question produced by `c10wFields`. -/
def c10wChoice : ChoiceQ :=
  { question_text := "RT"
    qtype := "RadioButton"
    selected_answers := [some "yes"]
    all_options := [some "yes", some "no"]
    options_details :=
      [⟨some "yes", some "R_0_y", some "Yes", true, none⟩,
       ⟨some "no", some "R_1_n", some "Off", false, none⟩]
    total_options := 2 }

theorem C10_witness :
    (Question.choice c10wChoice ∈
        (pipeline (fun s => s) "w10" c10wFields).questions) ∧
    (c10wChoice.all_options =
        c10wChoice.options_details.map (fun o => o.label) ∧
      c10wChoice.total_options = c10wChoice.options_details.length) :=
  ⟨by decide,
    C10_all_options_consistent (fun s => s) "w10" c10wFields
      (Question.choice c10wChoice) c10wChoice (by decide) rfl⟩

end PFE
